import Mathlib

/-!
# NexusCoachApi — verification of the dialogue-turn pipeline

Shallow embedding of the NLU fact extractor (`app/nlu.py`), the session
store (`app/store.py`), the localized message catalog (`app/i18n.py`) and
the per-turn processing pipeline (`app/main.py`) of the NexusCoach API,
together with proofs about the specification's claims.

Conventions of the embedding:
* Python strings are modelled as `Str := List Char`; `str` converts a Lean
  string literal to the model type.
* `str.lower()` is modelled character-wise with `pyLowerChar` (ASCII case
  folding; the claims only involve ASCII keywords).
* `unicodedata.normalize("NFD", ·)` followed by dropping combining marks is
  modelled by `stripAccent`, a character table for the Latin accented
  characters relevant to the Portuguese/English texts of the application.
* Python `re` patterns are modelled by `RElem` sequences interpreted by a
  backtracking matcher (`matchSeq`) that mirrors the engine's behaviour:
  leftmost match, alternatives tried in declared order, greedy quantifiers
  trying the longest consumption first.
* Python dicts are modelled as insertion-ordered association lists
  (`Dict := List (Str × Value)`) whose `setKey` replaces in place, as
  `dict.__setitem__` does.
-/

set_option maxRecDepth 20000

abbrev Str := List Char

def str (s : String) : Str := s.data

/-- ASCII lower-casing of one character (model of `str.lower()`). -/
def pyLowerChar (c : Char) : Char :=
  if 'A' ≤ c ∧ c ≤ 'Z' then Char.ofNat (c.toNat + 32) else c

/-- Accent stripping table: net effect of NFD decomposition followed by
removal of combining marks (`unicodedata.category(ch) == "Mn"`) on the
Latin characters used by the application's Portuguese/English texts; all
other characters are left unchanged. -/
def stripAccent (c : Char) : Char :=
  match c with
  | 'á' | 'à' | 'â' | 'ã' | 'ä' => 'a'
  | 'é' | 'è' | 'ê' | 'ë' => 'e'
  | 'í' | 'ì' | 'î' | 'ï' => 'i'
  | 'ó' | 'ò' | 'ô' | 'õ' | 'ö' => 'o'
  | 'ú' | 'ù' | 'û' | 'ü' => 'u'
  | 'ç' => 'c'
  | 'ñ' => 'n'
  | 'Á' | 'À' | 'Â' | 'Ã' | 'Ä' => 'A'
  | 'É' | 'È' | 'Ê' | 'Ë' => 'E'
  | 'Í' | 'Ì' | 'Î' | 'Ï' => 'I'
  | 'Ó' | 'Ò' | 'Ô' | 'Õ' | 'Ö' => 'O'
  | 'Ú' | 'Ù' | 'Û' | 'Ü' => 'U'
  | 'Ç' => 'C'
  | 'Ñ' => 'N'
  | _ => c

/-- Model of `str.lower()`. -/
def pyLower (s : Str) : Str := s.map pyLowerChar

/-- Model of `nlu._normalize`: NFD + drop combining marks, then lower. -/
def pyNormalize (s : Str) : Str := (s.map stripAccent).map pyLowerChar

/-- Python whitespace (`str.split()`, `str.strip()`, regex `\s`), ASCII part. -/
def isSpaceChar (c : Char) : Bool :=
  c == ' ' || c == '\t' || c == '\n' || c == '\r' || c == '\x0b' || c == '\x0c'

/-- Regex `\w` (word character), ASCII part. -/
def isWordChar (c : Char) : Bool :=
  ('a' ≤ c && c ≤ 'z') || ('A' ≤ c && c ≤ 'Z') || ('0' ≤ c && c ≤ '9') || c == '_'

/-- Regex class `[a-z]`. -/
def isLowerAlpha (c : Char) : Bool := 'a' ≤ c && c ≤ 'z'

def isDigitChar (c : Char) : Bool := '0' ≤ c && c ≤ '9'

/-- `needle` is a prefix of `hay` (Python `str.startswith`). -/
def leadsWith : Str → Str → Bool
  | [], _ => true
  | _ :: _, [] => false
  | a :: as, b :: bs => a == b && leadsWith as bs

/-- Python `needle in hay` (substring containment). -/
def containsSub (needle : Str) : Str → Bool
  | [] => needle.isEmpty
  | c :: t => leadsWith needle (c :: t) || containsSub needle t

/-- Python `str.split()` with no argument: split on whitespace runs. -/
def pySplit (s : Str) : List Str :=
  ((s.splitOnP (fun c => isSpaceChar c)).filter (fun w => !w.isEmpty))

/-- Python `str.strip()`: remove leading and trailing whitespace. -/
def pyStrip (s : Str) : Str :=
  ((s.dropWhile (fun c => isSpaceChar c)).reverse.dropWhile
    (fun c => isSpaceChar c)).reverse

/-- `int(s)` on a digit string; `none` models a `ValueError` on anything
else (the pipeline never feeds a parse failure to `int` on the inputs the
claims are about). -/
def pyParseNat (s : Str) : Option Nat :=
  if s.isEmpty then none
  else if s.all (fun c => isDigitChar c) then
    some (s.foldl (fun n c => n * 10 + (c.toNat - '0'.toNat)) 0)
  else none

theorem leadsWith_mem {n s : Str} (h : leadsWith n s = true) :
    ∀ c ∈ n, c ∈ s := by
  induction n generalizing s with
  | nil => intro c hc; cases hc
  | cons a as ih =>
    cases s with
    | nil => simp [leadsWith] at h
    | cons b bs =>
      simp only [leadsWith, Bool.and_eq_true, beq_iff_eq] at h
      intro c hc
      rcases List.mem_cons.mp hc with rfl | hc
      · exact h.1 ▸ List.mem_cons_self _ _
      · exact List.mem_cons_of_mem _ (ih h.2 c hc)

/-! ## A small model of the Python `re` constructs used by `app/nlu.py`

Each pattern of the source is transliterated into a `List RElem`.  The
matcher reproduces the engine's behaviour on these constructs: at a given
start position alternatives are tried in declared order, greedy quantifiers
try the longest consumption first and backtrack, and `re.search` takes the
leftmost start position that admits a match. -/

inductive RElem where
  /-- a literal string -/
  | lit (s : Str)
  /-- non-capturing alternation `(?:a|b|…)` -/
  | alt (ss : List Str)
  /-- optional alternation `(?:a|b|…)?` — alternatives, then the empty string -/
  | opt (ss : List Str)
  /-- `c+` for a character class, greedy -/
  | plus (cls : Char → Bool)
  /-- `c*` for a character class, greedy -/
  | star (cls : Char → Bool)
  /-- `(c+)` capturing, greedy -/
  | group (cls : Char → Bool)
  /-- capturing alternation `(a|b|…)` -/
  | galt (ss : List Str)
  /-- `(c{lo,hi})` capturing bounded repetition, greedy -/
  | gbound (cls : Char → Bool) (lo hi : Nat)
  /-- `(.+)$` — captures the (non-empty, newline-free) rest of the text -/
  | grest
  /-- `\b` right after a word character: end of text or next char non-word -/
  | eow

/-- Length of the maximal run of `cls`-characters at the head of `s`. -/
def runLen (cls : Char → Bool) : Str → Nat
  | [] => 0
  | c :: t => if cls c then runLen cls t + 1 else 0

/-- `n, n-1, …, m` (empty if `m > n`). -/
def descRange (n m : Nat) : List Nat :=
  (List.range (n + 1 - m)).map (fun i => n - i)

/-- All ways one element can consume a prefix of `s`, in the order the
backtracking engine tries them; each entry is (optional capture, rest). -/
def matchElem : RElem → Str → List (Option Str × Str)
  | .lit l, s => if leadsWith l s then [(none, s.drop l.length)] else []
  | .alt ss, s => ss.filterMap (fun a =>
      if leadsWith a s then some (none, s.drop a.length) else none)
  | .opt ss, s => (ss.filterMap (fun a =>
      if leadsWith a s then some (none, s.drop a.length) else none)) ++ [(none, s)]
  | .plus cls, s => (descRange (runLen cls s) 1).map (fun k => (none, s.drop k))
  | .star cls, s => (descRange (runLen cls s) 0).map (fun k => (none, s.drop k))
  | .group cls, s => (descRange (runLen cls s) 1).map
      (fun k => (some (s.take k), s.drop k))
  | .galt ss, s => ss.filterMap (fun a =>
      if leadsWith a s then some (some a, s.drop a.length) else none)
  | .gbound cls lo hi, s =>
      (descRange (min hi (runLen cls s)) lo).map
        (fun k => (some (s.take k), s.drop k))
  | .grest, s => if s.isEmpty || s.contains '\n' then [] else [(some s, [])]
  | .eow, s => match s with
      | [] => [(none, [])]
      | c :: t => if isWordChar c then [] else [(none, c :: t)]

/-- Match a whole pattern at the start of `s`; returns the captures in
order and the rest of the text after the match. -/
def matchSeq : List RElem → Str → Option (List Str × Str)
  | [], s => some ([], s)
  | e :: es, s =>
    (matchElem e s).findSome? (fun cr =>
      (matchSeq es cr.2).map (fun xr =>
        (match cr.1 with
         | some c => c :: xr.1
         | none => xr.1, xr.2)))

/-- `re.search`: leftmost position admitting a match. -/
def searchR (p : List RElem) : Str → Option (List Str × Str)
  | [] => matchSeq p []
  | c :: t =>
    match matchSeq p (c :: t) with
    | some r => some r
    | none => searchR p t

/-- `re.finditer`, fuelled (every pattern of the source consumes at least
one character per match, so `length + 1` fuel is always enough). -/
def findIterAux (p : List RElem) : Nat → Str → List (List Str)
  | 0, _ => []
  | fuel + 1, s =>
    match searchR p s with
    | none => []
    | some (caps, rest) => caps :: findIterAux p fuel rest

def findIter (p : List RElem) (s : Str) : List (List Str) :=
  findIterAux p (s.length + 1) s

theorem matchSeq_lit_backslash_none {l : Str} (rest : List RElem) {s : Str}
    (hl : '\\' ∈ l) (hs : '\\' ∉ s) :
    matchSeq (.lit l :: rest) s = none := by
  have : leadsWith l s = false := by
    cases h : leadsWith l s with
    | false => rfl
    | true => exact absurd (leadsWith_mem h _ hl) hs
  simp [matchSeq, matchElem, this]

theorem matchSeq_galt_backslash_none {ss : List Str} (rest : List RElem) {s : Str}
    (hl : ∀ a ∈ ss, '\\' ∈ a) (hs : '\\' ∉ s) :
    matchSeq (.galt ss :: rest) s = none := by
  have : ss.filterMap (fun a =>
      if leadsWith a s then some (some a, s.drop a.length) else none) = [] := by
    rw [List.filterMap_eq_nil_iff]
    intro a ha
    cases h : leadsWith a s with
    | false => simp
    | true => exact absurd (leadsWith_mem h _ (hl a ha)) hs
  simp [matchSeq, matchElem, this]

theorem searchR_none_of_all {p : List RElem} {s : Str}
    (h : ∀ t : Str, t.Sublist s → matchSeq p t = none) :
    searchR p s = none := by
  induction s with
  | nil => simpa [searchR] using h [] (List.nil_sublist _)
  | cons c t ih =>
    have h1 : matchSeq p (c :: t) = none := h _ (List.Sublist.refl _)
    simp only [searchR, h1]
    exact ih (fun u hu => h u (hu.trans (List.sublist_cons_self c t)))

/-! ## Champion reference data (`nlu.KNOWN_CHAMPIONS`, `nlu.CHAMPION_ALIASES`)

`KNOWN_CHAMPIONS` is a Python set literal; membership is what the code
relies on, while iteration order is unspecified.  The model keeps the
source listing order (first occurrence of each duplicate) as its canonical
iteration order. -/

def championsListing : List Str :=
  ([ -- Fighters
    "darius", "garen", "fiora", "camille", "jax", "irelia", "riven", "renekton",
    "sett", "wukong", "xin zhao", "jarvan", "lee sin", "vi", "olaf", "tryndamere",
    "yasuo", "yone", "pantheon", "jayce", "kayn", "aatrox", "warwick", "volibear",
    "hecarim", "nocturne", "shyvana", "mundo", "nasus", "yorick", "gwen", "urgot",
    -- Tanks
    "malphite", "ornn", "sion", "maokai", "nautilus", "leona", "alistar", "braum",
    "thresh", "blitzcrank", "amumu", "rammus", "gragas", "sejuani", "zac", "shen",
    "poppy", "singed", "tahm kench", "rell",
    -- Assassins
    "zed", "talon", "akali", "katarina", "fizz", "ekko", "diana", "kassadin",
    "khazix", "rengar", "evelynn", "pyke", "qiyana", "leblanc", "ahri",
    -- Mages
    "lux", "ahri", "orianna", "syndra", "veigar", "brand", "zyra", "annie",
    "malzahar", "viktor", "xerath", "ziggs", "velkoz", "twisted fate", "ryze",
    "cassiopeia", "aurelion sol", "seraphine", "karma", "morgana", "lulu",
    "nami", "soraka", "sona", "janna", "yuumi", "vex", "zoe", "neeko", "hwei",
    -- Marksmen (ADC)
    "jinx", "caitlyn", "vayne", "kaisa", "ezreal", "lucian", "draven", "ashe",
    "miss fortune", "tristana", "twitch", "jhin", "xayah", "varus", "corki",
    "kogmaw", "sivir", "kalista", "samira", "aphelios", "zeri", "nilah", "smolder",
    -- Supports
    "thresh", "lulu", "nami", "soraka", "sona", "janna", "yuumi", "braum",
    "leona", "nautilus", "alistar", "blitzcrank", "rakan", "pyke", "senna",
    "seraphine", "karma", "morgana", "zyra", "brand", "lux", "xerath"
   ] : List String).map str

/-- Append `c` unless already present (the `if … not in found: found.append`
idiom of the source). -/
def addIfNew (found : List Str) (c : Str) : List Str :=
  if c ∈ found then found else found ++ [c]

/-- Set-literal semantics: keep the first occurrence of each element. -/
def dedupKeepFirst (l : List Str) : List Str := l.foldl addIfNew []

def KNOWN_CHAMPIONS : List Str := dedupKeepFirst championsListing

def CHAMPION_ALIASES : List (Str × Str) :=
  ([("mf", "miss fortune"),
    ("tf", "twisted fate"),
    ("asol", "aurelion sol"),
    ("tk", "tahm kench"),
    ("j4", "jarvan"),
    ("jarvan iv", "jarvan"),
    ("lee", "lee sin"),
    ("xin", "xin zhao"),
    ("kha", "khazix"),
    ("kha\x27zix", "khazix"),
    ("kog", "kogmaw"),
    ("kog\x27maw", "kogmaw"),
    ("vel", "velkoz"),
    ("vel\x27koz", "velkoz")] : List (String × String)).map
    (fun p => (str p.1, str p.2))

/-- `sorted(KNOWN_CHAMPIONS, key=len, reverse=True)` — stable insertion
sort by descending length. -/
def insLenDesc (x : Str) : List Str → List Str
  | [] => [x]
  | y :: ys => if y.length ≤ x.length then x :: y :: ys else y :: insLenDesc x ys

def sortLenDesc : List Str → List Str
  | [] => []
  | x :: xs => insLenDesc x (sortLenDesc xs)

def sortedChampions : List Str := sortLenDesc KNOWN_CHAMPIONS

/-- One scan pass of `_find_all_champions`: walk `items`, and whenever
`pick` yields an identifier, append it unless already reported. -/
def collect (pick : α → Option Str) : List α → List Str → List Str
  | [], found => found
  | x :: xs, found =>
    collect pick xs
      (match pick x with
       | some c => addIfNew found c
       | none => found)

/-- Alias test of `_find_all_champions`: `alias in text or alias in text_words`. -/
def aliasPick (t : Str) (p : Str × Str) : Option Str :=
  if containsSub p.1 t || p.1 ∈ pySplit t then some p.2 else none

/-- Canonical-name test of `_find_all_champions`: `champion in text`. -/
def canonPick (t : Str) (c : Str) : Option Str :=
  if containsSub c t then some c else none

/-- `nlu._find_all_champions`: aliases first (table order), then canonical
names sorted by descending length, deduplicating as it goes. -/
def findAllChampions (t : Str) : List Str :=
  collect (canonPick t) sortedChampions (collect (aliasPick t) CHAMPION_ALIASES [])

/-- `nlu._resolve_champion`: exact alias, exact canonical name, then the
first known champion that the token is a prefix of or a component word of
(the source iterates a Python set here; the model iterates the listing
order). -/
def resolveChampion (name : Str) : Option Str :=
  let nl := pyStrip (pyLower name)
  match (CHAMPION_ALIASES.find? (fun p => p.1 == nl)).map (fun p => p.2) with
  | some c => some c
  | none =>
    if nl ∈ KNOWN_CHAMPIONS then some nl
    else (KNOWN_CHAMPIONS.find? (fun c => leadsWith nl c || nl ∈ pySplit c))

example : findAllChampions (str "estou com yasuo mid contra zed") =
    [str "yasuo", str "zed"] := by decide
example : resolveChampion (str "yasuo") = some (str "yasuo") := by decide
example : resolveChampion (str "mf") = some (str "miss fortune") := by decide
example : resolveChampion (str "miss") = some (str "miss fortune") := by decide

/-! ## Intent inference (`nlu.INTENTS`, `nlu.infer_intent`) -/

def INTENTS : List (Str × List Str) :=
  ([("build", ["item", "build", "proximo", "prox", "comprar", "next", "buy"]),
    ("all_in", ["all-in", "all in", "allin"]),
    ("objective", ["dragao", "arauto", "baron", "objetivo", "dragon", "herald", "objective"]),
    ("status", ["na frente", "atras", "empatado", "even", "ahead", "behind"]),
    ("macro", ["macro", "split", "agrupo", "group", "teamfight", "tf", "team fight"]),
    ("follow_up", ["e agora", "agora o que", "continuo", "seguinte", "what now", "and now"]),
    ("matchup", ["contra", "versus", "vs", "matchup", "enfrentando", "against"])]
   : List (String × List String)).map (fun p => (str p.1, p.2.map str))

def findIntentLabel : List (Str × List Str) → Str → Option Str
  | [], _ => none
  | (lab, kws) :: rest, tl =>
    if kws.any (fun k => containsSub k tl) then some lab else findIntentLabel rest tl

/-- `nlu.infer_intent`: first label in table order with a matching keyword,
else `"general"`. -/
def inferIntent (text : Str) : Str :=
  (findIntentLabel INTENTS (pyLower text)).getD (str "general")

/-! ## Scalar state-hint extractors (`nlu._extract_gold/_status/_phase/_lane`)

The two gold regexes of the source are raw strings containing doubled
backslashes — `r"(\\d{3,5})\\s*(gold|ouro|g)\\b"` and
`r"tenho\\s*(\\d{3,5})\\b"` — so `\\d` matches a literal backslash followed
by letters `d`, not digits.  They are transliterated as such. -/

def goldPat1 : List RElem :=
  [.galt [str "\\ddddd", str "\\dddd", str "\\ddd"],
   .lit (str "\\"), .star (fun c => c == 's'),
   .galt [str "gold", str "ouro", str "g"],
   .lit (str "\\b")]

def goldPat2 : List RElem :=
  [.lit (str "tenho\\"), .star (fun c => c == 's'),
   .galt [str "\\ddddd", str "\\dddd", str "\\ddd"],
   .lit (str "\\b")]

/-- `nlu._extract_gold` (first pattern, then the second; the capture is fed
to `int`, which for these degenerate patterns could only ever see a
non-numeric string — `pyParseNat` then yields `none` where the source would
raise `ValueError`, a case no backslash-free text can reach). -/
def extractGold (t : Str) : Option Nat :=
  match searchR goldPat1 t with
  | some (caps, _) => pyParseNat (caps.headD [])
  | none =>
    match searchR goldPat2 t with
    | some (caps, _) => pyParseNat (caps.headD [])
    | none => none

/-- Modelled from the spec: "extracts gold (first integer run of 3–5 digits
followed by a currency token, else the pattern \x22tenho N\x22)" — the
regexes `(\d{3,5})\s*(gold|ouro|g)\b` and `tenho\s*(\d{3,5})\b` the source
evidently intended. -/
def specExtractGold (t : Str) : Option Nat :=
  let p1 : List RElem :=
    [.gbound isDigitChar 3 5, .star isSpaceChar,
     .galt [str "gold", str "ouro", str "g"], .eow]
  let p2 : List RElem :=
    [.lit (str "tenho"), .star isSpaceChar, .gbound isDigitChar 3 5, .eow]
  match searchR p1 t with
  | some (caps, _) => pyParseNat (caps.headD [])
  | none =>
    match searchR p2 t with
    | some (caps, _) => pyParseNat (caps.headD [])
    | none => none

/-- `nlu._extract_status`. -/
def extractStatus (t : Str) : Option Str :=
  if containsSub (str "na frente") t || containsSub (str "vantagem") t then
    some (str "ahead")
  else if containsSub (str "atras") t || containsSub (str "desvantagem") t then
    some (str "behind")
  else if containsSub (str "empatado") t || containsSub (str "even") t then
    some (str "even")
  else if containsSub (str "ahead") t then some (str "ahead")
  else if containsSub (str "behind") t then some (str "behind")
  else none

/-- `nlu._extract_phase`. -/
def extractPhase (t : Str) : Option Str :=
  if containsSub (str "early") t || containsSub (str "inicio") t
      || containsSub (str "comeco") t then some (str "early")
  else if containsSub (str "mid") t || containsSub (str "meio") t then
    some (str "mid")
  else if containsSub (str "late") t || containsSub (str "fim") t then
    some (str "late")
  else none

/-- `nlu._extract_lane`. -/
def extractLane (t : Str) : Option Str :=
  if containsSub (str "top") t then some (str "top")
  else if containsSub (str "mid") t || containsSub (str "meio") t then
    some (str "mid")
  else if containsSub (str "bot") t || containsSub (str "bottom") t
      || containsSub (str "dragao") t then some (str "bot")
  else if containsSub (str "jg") t || containsSub (str "jungle") t
      || containsSub (str "selva") t then some (str "jungle")
  else if containsSub (str "sup") t || containsSub (str "support") t then
    some (str "support")
  else none

/-! ## Item hints (`nlu.extract_item_hints` and helpers) -/

structure SelfItemH where
  item : Str
  status : Str
deriving Repr, DecidableEq

structure EnemyItemH where
  champion : Str
  item : Str
  status : Str
deriving Repr, DecidableEq

/-- Result of `extract_item_hints`: a dict holding at most the keys
`self_item` and `enemy_item`. -/
structure ItemHints where
  selfItem : Option SelfItemH := none
  enemyItem : Option EnemyItemH := none
deriving Repr, DecidableEq

def ItemHints.isEmptyH (ih : ItemHints) : Bool :=
  ih.selfItem.isNone && ih.enemyItem.isNone

/-- The digit guard of `_extract_self_prefix_item` is
`re.search(r"\\b\\d+\\b", item)`: inside a raw string `\\b` is a literal
backslash followed by `b` and `\\d+` a literal backslash followed by one or
more letters `d`, so the pattern is the literal text `\b\d…d\b`. -/
def brokenDigitPat : List RElem :=
  [.lit (str "\\b\\"), .plus (fun c => c == 'd'), .lit (str "\\b")]

def brokenDigitSearch (s : Str) : Bool := (searchR brokenDigitPat s).isSome

/-- The self-referential prefix table of `_extract_self_prefix_item`. -/
def selfPrefixes : List (Str × Str) :=
  ([("to com ", "has"),
    ("estou com ", "has"),
    ("tenho ", "has"),
    ("i have ", "has"),
    ("im with ", "has"),
    ("i\x27m with ", "has"),
    ("to fazendo ", "building"),
    ("estou fazendo ", "building"),
    ("im building ", "building"),
    ("i\x27m building ", "building"),
    ("fazendo ", "building"),
    ("fechando ", "building"),
    ("comprando ", "building"),
    ("building ", "building"),
    ("buying ", "building")] : List (String × String)).map
    (fun p => (str p.1, str p.2))

/-- `nlu._extract_self_prefix_item`: first matching prefix; the remainder
is rejected if empty, if the (degenerate) digit pattern matches, or if it
contains "gold" or "ouro". -/
def extractSelfItem : List (Str × Str) → Str → Option SelfItemH
  | [], _ => none
  | (pre, st) :: rest, text =>
    if leadsWith pre text then
      let item := pyStrip (text.drop pre.length)
      if item.isEmpty || brokenDigitSearch item
          || containsSub (str "gold") item || containsSub (str "ouro") item then
        none
      else some ⟨item, st⟩
    else extractSelfItem rest text

/-- The subject+verb+item pattern of `nlu._extract_item_match` is also
written with doubled backslashes (`…\\s+…`), so between its pieces it
requires a literal backslash followed by letters `s`; transliterated
as such. -/
def itemMatchVerbs : List Str :=
  (["fez", "fechei", "fechou", "comprou", "tenho", "tem", "ta com", "to com",
    "estou com", "ta fazendo", "to fazendo", "estou fazendo", "fazendo",
    "fechando", "comprando", "buildando", "has", "have", "built", "building",
    "buying", "is building", "is buying"] : List String).map str

def itemMatchPat : List RElem :=
  [.group isLowerAlpha,
   .lit (str "\\"), .plus (fun c => c == 's'),
   .galt itemMatchVerbs,
   .lit (str "\\"), .plus (fun c => c == 's'),
   .grest]

/-- `nlu._extract_item_match`. -/
def extractItemMatch (t : Str) : Option (Str × Str × Str) :=
  match searchR itemMatchPat t with
  | some ([subj, verb, item], _) => some (pyStrip subj, pyStrip verb, pyStrip item)
  | _ => none

/-- `nlu._is_self_subject`. -/
def isSelfSubject (subject : Str) : Bool :=
  ([("eu" : String), "meu", "minha", "to", "estou", "i", "my"].map str).contains
    subject

/-- `nlu.extract_item_hints`. -/
def extractItemHints (text : Str) : ItemHints :=
  let normalized := pyNormalize text
  match extractSelfItem selfPrefixes normalized with
  | some h => { selfItem := some h }
  | none =>
    match extractItemMatch normalized with
    | none => {}
    | some (subject, verb, item0) =>
      let item := pyStrip item0
      let status :=
        if containsSub (str "fazendo") verb || containsSub (str "fechando") verb
            || containsSub (str "comprando") verb then str "building"
        else str "has"
      if isSelfSubject subject then
        { selfItem := some ⟨item, status⟩ }
      else
        { enemyItem := some ⟨subject, item, status⟩ }

example : extractItemHints (str "to com espada") =
    { selfItem := some ⟨str "espada", str "has"⟩ } := by decide
example : extractItemHints (str "tenho 300") =
    { selfItem := some ⟨str "300", str "has"⟩ } := by decide
example : extractItemHints (str "tenho ouro") = {} := by decide
example : extractItemHints (str "oi") = {} := by decide

/-! ## Champion / enemy attribution (`nlu.extract_champions`) -/

structure Enemy where
  champion : Str
  status : Str
  isLaner : Bool
deriving Repr, DecidableEq

/-- The four `player_patterns` of `extract_champions`, in declared order. -/
def playerPatterns : List (List RElem) :=
  [[.alt ([("estou" : String), "to", "sou", "jogo", "jogando", "vou"].map str),
    .plus isSpaceChar, .alt ([("de" : String), "com"].map str),
    .plus isSpaceChar, .group isWordChar],
   [.alt ([("meu" : String), "minha"].map str), .plus isSpaceChar,
    .group isWordChar],
   [.group isWordChar, .plus isSpaceChar,
    .alt ([("aqui" : String), "main", "otp"].map str)],
   [.alt ([("i am" : String), "i\x27m", "im", "playing"].map str),
    .plus isSpaceChar, .group isWordChar]]

inductive PatKind where
  | laner | fed | fedPair | behindK
deriving Repr, DecidableEq

/-- The seven `enemy_patterns` of `extract_champions`, in declared order. -/
def enemyPatterns : List (List RElem × PatKind) :=
  [([.lit (str "contra"), .plus isSpaceChar,
     .opt ([("um" : String), "uma", "o", "a"].map str), .star isSpaceChar,
     .group isWordChar], .laner),
   ([.alt ([("tem" : String), "ha", "existe"].map str), .plus isSpaceChar,
     .opt ([("um" : String), "uma", "o", "a"].map str), .star isSpaceChar,
     .group isWordChar, .plus isSpaceChar,
     .alt ([("forte" : String), "fed", "feedado"].map str)], .fed),
   ([.group isWordChar, .plus isSpaceChar,
     .alt ([("e" : String), "and"].map str), .plus isSpaceChar,
     .group isWordChar, .plus isSpaceChar,
     .alt ([("fortes" : String), "feds", "feedados", "strong"].map str)], .fedPair),
   ([.group isWordChar, .plus isSpaceChar,
     .alt ([("tambem" : String), "also"].map str), .plus isSpaceChar,
     .alt ([("esta" : String), "está", "is", "ta"].map str), .plus isSpaceChar,
     .alt ([("forte" : String), "fed"].map str)], .fed),
   ([.group isWordChar, .plus isSpaceChar,
     .alt ([("esta" : String), "está", "is", "ta"].map str), .plus isSpaceChar,
     .alt ([("forte" : String), "fed", "feedado", "strong", "ahead"].map str)],
    .fed),
   ([.group isWordChar, .plus isSpaceChar,
     .alt ([("esta" : String), "está", "is", "ta"].map str), .plus isSpaceChar,
     .alt ([("fraco" : String), "weak", "behind", "atras"].map str)], .behindK),
   ([.alt ([("amassei" : String), "ganhei", "venci", "matei", "destrui"].map str),
     .plus isSpaceChar,
     .opt ([("o" : String), "a", "do", "da"].map str), .star isSpaceChar,
     .group isWordChar], .behindK)]

/-- The player loop of `extract_champions`: first pattern whose capture
resolves to a champion that was found in the text wins; the champion is
removed from the found list. -/
def playerScan (tl : Str) : List (List RElem) → List Str → Option Str × List Str
  | [], found => (none, found)
  | p :: ps, found =>
    match searchR p tl with
    | some (caps, _) =>
      match caps.headD [] |> resolveChampion with
      | some c =>
        if c ∈ found then (some c, found.erase c) else playerScan tl ps found
      | none => playerScan tl ps found
    | none => playerScan tl ps found

/-- Add one enemy candidate word: resolve it, skip it if unresolved,
already processed, or equal to the player's champion. -/
def tryAddEnemy (player : Option Str) (st : List Enemy × List Str) (w : Str)
    (estatus : Str) (laner : Bool) : List Enemy × List Str :=
  match resolveChampion w with
  | none => st
  | some c =>
    if c ∈ st.2 || player == some c then st
    else (st.1 ++ [⟨c, estatus, laner⟩], st.2 ++ [c])

/-- Process the captures of one `finditer` match for one enemy pattern. -/
def procCaps (player : Option Str) (kind : PatKind)
    (st : List Enemy × List Str) (caps : List Str) : List Enemy × List Str :=
  match kind, caps with
  | .fedPair, [w1, w2] =>
    tryAddEnemy player (tryAddEnemy player st w1 (str "ahead") false) w2
      (str "ahead") false
  | .laner, [w] => tryAddEnemy player st w (str "even") true
  | .fed, [w] => tryAddEnemy player st w (str "ahead") false
  | .behindK, [w] => tryAddEnemy player st w (str "behind") false
  | _, _ => st

/-- The enemy loop of `extract_champions`: every pattern, every
`finditer` match, in order. -/
def enemyScan (tl : Str) (player : Option Str) : List Enemy × List Str :=
  enemyPatterns.foldl
    (fun st pk => (findIter pk.1 tl).foldl (fun st caps => procCaps player pk.2 st caps) st)
    ([], [])

/-- `nlu.extract_champions`: player champion and enemies with status. -/
def extractChampions (text : Str) : Option Str × List Enemy :=
  let tl := pyNormalize text
  let found := findAllChampions tl
  if found.isEmpty then (none, [])
  else
    let pr := playerScan tl playerPatterns found
    let player := pr.1
    let es := enemyScan tl player
    -- leftover found champions default to status "even", not a laner
    let es :=
      pr.2.foldl
        (fun es c =>
          if c ∈ es.2 || player == some c then es
          else (es.1 ++ [⟨c, str "even", false⟩], es.2)) es
    (player, es.1)

/-! ## `nlu.extract_state_hints` -/

/-- Result of `extract_state_hints`: a dict over a fixed key set, absent
keys modelled as `none`. -/
structure StateHints where
  gold : Option Nat := none
  status : Option Str := none
  gamePhase : Option Str := none
  lane : Option Str := none
  champion : Option Str := none
  enemies : Option (List Enemy) := none
  enemy : Option Str := none
deriving Repr, DecidableEq

def extractStateHints (text : Str) : StateHints :=
  let tl := pyNormalize text
  let cd := extractChampions text
  { gold := extractGold tl
    status := extractStatus tl
    gamePhase := extractPhase tl
    lane := extractLane tl
    champion := cd.1
    enemies := if cd.2.isEmpty then none else some cd.2
    enemy :=
      if cd.2.isEmpty then none
      else
        match cd.2.find? (fun e => e.isLaner) with
        | some e => some e.champion
        | none => (cd.2.headD ⟨[], [], false⟩).champion }

example : extractChampions (str "estou com Yasuo mid contra Zed") =
    (some (str "yasuo"), [⟨str "zed", str "even", true⟩]) := by decide
example : extractStateHints (str "tenho 2500 de ouro e to na frente") =
    { status := some (str "ahead") } := by decide
example : specExtractGold (str "tenho 2500 de ouro e to na frente") =
    some 2500 := by decide

/-! ## Session state model (`app/store.py`, JSON-ish values)

Python dicts are modelled as insertion-ordered association lists with
unique keys: `setKey` replaces the value in place for an existing key and
appends new keys, exactly like `dict.__setitem__`. -/

inductive Value where
  | vnull
  | vbool (b : Bool)
  | vint (n : Int)
  | vstr (s : Str)
  | vlist (xs : List Value)
  | vdict (entries : List (Str × Value))

abbrev Dict := List (Str × Value)

def getKey : Dict → Str → Option Value
  | [], _ => none
  | (k, v) :: rest, key => if k == key then some v else getKey rest key

def setKey : Dict → Str → Value → Dict
  | [], key, v => [(key, v)]
  | (k, w) :: rest, key, v =>
    if k == key then (k, v) :: rest else (k, w) :: setKey rest key v

/-- `dict.pop(key, None)`. -/
def delKey : Dict → Str → Dict
  | [], _ => []
  | (k, w) :: rest, key => if k == key then delKey rest key else (k, w) :: delKey rest key

/-- `d.update(u)`: insert the entries of `u` in order. -/
def dictUpdate (d u : Dict) : Dict := u.foldl (fun d kv => setKey d kv.1 kv.2) d

/-- Python truthiness of a value (`if state.get(k):`). -/
def truthy : Value → Bool
  | .vnull => false
  | .vbool b => b
  | .vint n => n != 0
  | .vstr s => !s.isEmpty
  | .vlist xs => !xs.isEmpty
  | .vdict m => !m.isEmpty

def truthyOpt : Option Value → Bool
  | none => false
  | some v => truthy v

/-- `list(state.get(key, []))` for a list-valued key (a non-list value
would raise `TypeError` in the source; the claims never reach that case). -/
def getListD (st : Dict) (key : Str) : List Value :=
  match getKey st key with
  | some (.vlist xs) => xs
  | _ => []

/-- `dict(state.get(key, {}))` for a dict-valued key. -/
def getDictD (st : Dict) (key : Str) : Dict :=
  match getKey st key with
  | some (.vdict m) => m
  | _ => []

/-- Python `item in xs` for a string `item` against a list of values. -/
def isStrIn (i : Str) (xs : List Value) : Bool :=
  xs.any (fun v => match v with
    | .vstr s => s == i
    | _ => false)

/-- `MemoryStore.create_session`: defaults, then the initial context. -/
def createSessionState (initialState : Dict) : Dict :=
  dictUpdate
    [(str "game_phase", .vstr (str "early")),
     (str "status", .vstr (str "even")),
     (str "timestamp", .vnull)] initialState

/-- The Python slice `h[-n:]`: for `n = 0` this is the whole list (the
`-0 == 0` pitfall), otherwise the last `n` elements. -/
def pySliceLast (n : Nat) (h : List α) : List α :=
  if n = 0 then h else h.drop (h.length - n)

/-- `MemoryStore.append_history`: append, then truncate when the length
exceeds the configured maximum. -/
def appendHistory (maxH : Nat) (h : List α) (item : α) : List α :=
  let h2 := h ++ [item]
  if maxH < h2.length then pySliceLast maxH h2 else h2

/-! ## Localized messages (`app/i18n.py`) -/

def ptMessages : List (Str × Str) :=
  ([("session_not_found", "Sessão encerrada. Toque em Iniciar Partida para continuar."),
    ("session_already_ended", "Sessão já encerrada."),
    ("stt_unclear", "Não entendi. Pode repetir?"),
    ("stt_failed", "Não consegui ouvir agora. Tente novamente."),
    ("internal_error", "Tente novamente em instantes."),
    ("build_defensive", "Sugestão rápida: foque em item defensivo se estiver atrás."),
    ("all_in_early", "Evite all-in cedo. Busque trocas curtas e seguras."),
    ("all_in_advantage", "Se tiver vantagem de ouro e ult, pode forçar o all-in."),
    ("objective", "Objetivo só com prioridade de rota e visão no rio."),
    ("macro", "Se estiver forte no 1v1, split pode ser melhor que agrupar."),
    ("follow_up", "Continuando a dica anterior: {last_reply}"),
    ("matchup", "Matchup {champion} vs {enemy} na {lane}{context}: jogue com calma e evite trocas longas no early."),
    ("need_context", "Diga campeão, rota e matchup para eu ajudar melhor."),
    ("continue_strategy", "Continuando a estratégia anterior: {last_reply}"),
    ("enemy_item", "Ok, {champion} com {item}. Se estiver te castigando, priorize defesa antes de dano."),
    ("self_item", "Beleza, registrei {item}. Se quiser ajuste, diga seu ouro e o estado da rota.")]
   : List (String × String)).map (fun p => (str p.1, str p.2))

def enMessages : List (Str × Str) :=
  ([("session_not_found", "Session ended. Tap Start Match to continue."),
    ("session_already_ended", "Session already ended."),
    ("stt_unclear", "I didn\x27t catch that. Please repeat."),
    ("stt_failed", "I couldn\x27t hear you. Try again."),
    ("internal_error", "Try again in a moment."),
    ("build_defensive", "Quick tip: prioritize defense if you\x27re behind."),
    ("all_in_early", "Avoid early all-ins. Take short, safe trades."),
    ("all_in_advantage", "If you have a gold lead and ult, you can force the all-in."),
    ("objective", "Go for objectives only with lane priority and river vision."),
    ("macro", "If you\x27re strong in the 1v1, split can be better than grouping."),
    ("follow_up", "Continuing the previous tip: {last_reply}"),
    ("matchup", "Matchup {champion} vs {enemy} in {lane}{context}: play calm and avoid long trades early."),
    ("need_context", "Tell me your champion, lane, and matchup so I can help."),
    ("continue_strategy", "Continuing the previous strategy: {last_reply}"),
    ("enemy_item", "Got it, {champion} has {item}. If it\x27s hurting you, prioritize defense."),
    ("self_item", "Noted your {item}. If you want adjustments, tell me your gold and lane state.")]
   : List (String × String)).map (fun p => (str p.1, str p.2))

/-- `i18n._pick_lang`. -/
def pickLang (locale : Option Str) : Str :=
  match locale with
  | none => str "pt"
  | some l =>
    if l.isEmpty then str "pt"
    else if leadsWith (str "en") (pyLower l) then str "en" else str "pt"

/-- `i18n.msg` for parameter-free messages (the `.format()` step is the
identity on the messages the pipeline surfaces as errors). -/
def msg (locale : Option Str) (key : Str) : Str :=
  let lang := pickLang locale
  let table := if lang == str "en" then enMessages else ptMessages
  ((table.find? (fun p => p.1 == key)).map (fun p => p.2)).getD key

/-! ## Item-hint merge (`main._merge_item_hints`) -/

/-- `main._merge_item_hints`: accumulate item knowledge into an updates
dict; a "has" item is appended only when not already present. -/
def mergeItemHints (state : Dict) (ih : ItemHints) : Dict :=
  let u : Dict := []
  let u :=
    match ih.selfItem with
    | some e =>
      if !e.item.isEmpty then
        let si0 := getListD state (str "self_items")
        let si :=
          if e.status == str "has" && !isStrIn e.item si0 then
            si0 ++ [.vstr e.item]
          else si0
        let u := setKey u (str "self_items") (.vlist si)
        let u :=
          if e.status == str "building" then
            setKey u (str "self_building") (.vstr e.item)
          else u
        setKey u (str "last_self_item") (.vstr e.item)
      else u
    | none => u
  match ih.enemyItem with
  | some e =>
    if !e.champion.isEmpty && !e.item.isEmpty then
      let em0 := getDictD state (str "enemy_items")
      let cur0 :=
        match getKey em0 e.champion with
        | some (.vlist xs) => xs
        | _ => []
      let cur :=
        if e.status == str "has" && !isStrIn e.item cur0 then
          cur0 ++ [.vstr e.item]
        else cur0
      let em := setKey em0 e.champion (.vlist cur)
      let u := setKey u (str "enemy_items") (.vdict em)
      let u :=
        if e.status == str "building" then
          let eb := getDictD state (str "enemy_building")
          setKey u (str "enemy_building") (.vdict (setKey eb e.champion (.vstr e.item)))
        else u
      setKey u (str "last_enemy_item")
        (.vdict [(str "champion", .vstr e.champion), (str "item", .vstr e.item)])
    else u
  | none => u

/-! ## The per-turn pipeline (`main._process_turn`)

External collaborators are modelled as oracle inputs: the strategy/LLM
reply and the wall clock arrive in `TurnArgs`; the advice store and the
durable log have no effect on session state and are omitted.  The function
returns the session state and history exactly as the store holds them when
the turn completes; raising `AppError` is the `Except.error` branch, taken
before any store mutation. -/

structure AppErr where
  code : Str
  userMessage : Str
  statusCode : Nat
deriving Repr, DecidableEq

structure TurnArgs where
  text : Str
  /-- `client_state_hint`; `None` and `{}` both behave as absent. -/
  clientHint : Dict := []
  /-- `request.timestamp`, already rendered with `.isoformat()`. -/
  tsGiven : Option Str := none
  /-- `datetime.now()` rendered with `.isoformat()`. -/
  nowTs : Str := []
  /-- what `strategy.generate_reply` returns for this turn. -/
  reply : Str := []

/-- Serialize `extract_state_hints` output in the source's key insertion
order. -/
def hintsToUpdates (h : StateHints) : Dict :=
  (match h.gold with
   | some g => [(str "gold", Value.vint g)]
   | none => [])
  ++ (match h.status with
      | some s => [(str "status", Value.vstr s)]
      | none => [])
  ++ (match h.gamePhase with
      | some s => [(str "game_phase", Value.vstr s)]
      | none => [])
  ++ (match h.lane with
      | some s => [(str "lane", Value.vstr s)]
      | none => [])
  ++ (match h.champion with
      | some s => [(str "champion", Value.vstr s)]
      | none => [])
  ++ (match h.enemies with
      | some es =>
        [(str "enemies", Value.vlist (es.map (fun e =>
           .vdict [(str "champion", .vstr e.champion),
                   (str "status", .vstr e.status),
                   (str "is_laner", .vbool e.isLaner)])))]
      | none => [])
  ++ (match h.enemy with
      | some s => [(str "enemy", Value.vstr s)]
      | none => [])

/-- The write-once guard of `_process_turn` (`main.py` lines 163–167): drop
`champion`/`lane` from the updates when the current state already holds a
truthy value for them. -/
def dropLocked (state updates : Dict) : Dict :=
  let u :=
    if truthyOpt (getKey state (str "champion")) then
      delKey updates (str "champion")
    else updates
  if truthyOpt (getKey state (str "lane")) then delKey u (str "lane") else u

/-- `main._process_turn` restricted to its effect on the session record. -/
def processTurn (maxH : Nat) (locale : Str) (state : Dict)
    (history : List Dict) (a : TurnArgs) : Except AppErr (Dict × List Dict) :=
  let updates : Dict :=
    if !a.clientHint.isEmpty then dictUpdate [] a.clientHint else []
  let textClean := pyStrip a.text
  if textClean.isEmpty then
    .error ⟨str "STT_UNCLEAR", msg (some locale) (str "stt_unclear"), 400⟩
  else
    let updates := dictUpdate updates (hintsToUpdates (extractStateHints textClean))
    let ih := extractItemHints textClean
    let updates :=
      if !ih.isEmptyH then dictUpdate updates (mergeItemHints state ih) else updates
    let updates := setKey updates (str "last_user_text") (.vstr textClean)
    let ts :=
      match a.tsGiven with
      | some t => t
      | none => a.nowTs
    let updates := setKey updates (str "timestamp") (.vstr ts)
    let updates := dropLocked state updates
    let state1 := dictUpdate state updates
    let intent := inferIntent textClean
    let state2 :=
      dictUpdate state1
        [(str "last_intent", .vstr intent), (str "last_reply", .vstr a.reply)]
    let entry : Dict :=
      [(str "text", .vstr textClean),
       (str "reply", .vstr a.reply),
       (str "intent", .vstr intent),
       (str "context", .vdict
         [(str "champion", (getKey state1 (str "champion")).getD .vnull),
          (str "lane", (getKey state1 (str "lane")).getD .vnull),
          (str "enemy", (getKey state1 (str "enemy")).getD .vnull),
          (str "game_phase", (getKey state1 (str "game_phase")).getD .vnull),
          (str "status", (getKey state1 (str "status")).getD .vnull),
          (str "gold", (getKey state1 (str "gold")).getD .vnull)]),
       (str "timestamp", .vstr ts)]
    let history1 := appendHistory maxH history entry
    .ok (state2, history1)

/-- The store after one `/turn` request: on an error the turn leaves the
session untouched. -/
def stepStore (maxH : Nat) (locale : Str) (sh : Dict × List Dict)
    (a : TurnArgs) : Dict × List Dict :=
  match processTurn maxH locale sh.1 sh.2 a with
  | .ok r => r
  | .error _ => sh

/-- A whole sequence of `/turn` requests against one session. -/
def runTurns (maxH : Nat) (locale : Str) (sh : Dict × List Dict)
    (turns : List TurnArgs) : Dict × List Dict :=
  turns.foldl (stepStore maxH locale) sh


/-! ## Dictionary lemmas -/

instance : Inhabited Value := ⟨.vnull⟩

theorem getKey_setKey_self (d : Dict) (k : Str) (v : Value) :
    getKey (setKey d k v) k = some v := by
  induction d with
  | nil => simp [setKey, getKey]
  | cons kv rest ih =>
    cases h : kv.1 == k with
    | true => simp [setKey, getKey, h]
    | false => simp [setKey, getKey, h, ih]

theorem getKey_setKey_ne (d : Dict) {k k' : Str} (v : Value)
    (h : (k' == k) = false) :
    getKey (setKey d k' v) k = getKey d k := by
  induction d with
  | nil => simp [setKey, getKey, h]
  | cons kv rest ih =>
    cases hk : kv.1 == k' with
    | true =>
      have h2 : (kv.1 == k) = false := by
        simp only [beq_iff_eq] at hk h ⊢
        exact hk ▸ h
      simp [setKey, getKey, hk, h2]
    | false =>
      cases hk2 : kv.1 == k with
      | true => simp [setKey, getKey, hk, hk2]
      | false => simp [setKey, getKey, hk, hk2, ih]

/-- Last value bound to `key` in an update list (the binding that survives
`dict.update`). -/
def lastVal : Dict → Str → Option Value
  | [], _ => none
  | (k, v) :: rest, key =>
    match lastVal rest key with
    | some w => some w
    | none => if k == key then some v else none

/-- The master lemma for `dict.update`. -/
theorem getKey_dictUpdate (d u : Dict) (k : Str) :
    getKey (dictUpdate d u) k =
      match lastVal u k with
      | some v => some v
      | none => getKey d k := by
  induction u generalizing d with
  | nil => simp [dictUpdate, lastVal]
  | cons kv rest ih =>
    have step : dictUpdate d (kv :: rest) = dictUpdate (setKey d kv.1 kv.2) rest := by
      simp [dictUpdate]
    rw [step, ih]
    cases hrest : lastVal rest k with
    | some w => simp [lastVal, hrest]
    | none =>
      cases hk : kv.1 == k with
      | true =>
        have := beq_iff_eq.mp hk
        subst this
        simp [lastVal, hrest, getKey_setKey_self]
      | false =>
        simp [lastVal, hrest, hk, getKey_setKey_ne _ _ hk]

def hasKeyB (u : Dict) (k : Str) : Bool := u.any (fun kv => kv.1 == k)

theorem lastVal_eq_none {u : Dict} {k : Str} (h : hasKeyB u k = false) :
    lastVal u k = none := by
  induction u with
  | nil => rfl
  | cons kv rest ih =>
    simp only [hasKeyB, List.any_cons, Bool.or_eq_false_iff] at h
    have hr : lastVal rest k = none := ih (by simpa [hasKeyB] using h.2)
    simp [lastVal, hr, h.1]

theorem hasKeyB_delKey_self (u : Dict) (k : Str) :
    hasKeyB (delKey u k) k = false := by
  induction u with
  | nil => rfl
  | cons kv rest ih =>
    cases h : kv.1 == k with
    | true => simpa [delKey, h] using ih
    | false => simpa [delKey, hasKeyB, h] using ih

theorem hasKeyB_delKey_of_not {u : Dict} {k : Str} (k' : Str)
    (h : hasKeyB u k = false) : hasKeyB (delKey u k') k = false := by
  induction u with
  | nil => rfl
  | cons kv rest ih =>
    simp only [hasKeyB, List.any_cons, Bool.or_eq_false_iff] at h
    have hr := ih (by simpa [hasKeyB] using h.2)
    cases hk : kv.1 == k' with
    | true => simpa [delKey, hk] using hr
    | false =>
      have hr2 : (delKey rest k').any (fun kv => kv.1 == k) = false := by
        simpa [hasKeyB] using hr
      simp [delKey, hk, hasKeyB, h.1, hr2]

theorem getKey_dictUpdate_absent {u : Dict} {k : Str} (d : Dict)
    (h : hasKeyB u k = false) : getKey (dictUpdate d u) k = getKey d k := by
  rw [getKey_dictUpdate, lastVal_eq_none h]

/-! ## C4 — history eviction -/

theorem appendHistory_eq_drop {α : Type _} {N : Nat} (hN : N ≠ 0)
    (l : List α) (y : α) :
    appendHistory N l y = (l ++ [y]).drop (l.length + 1 - N) := by
  unfold appendHistory pySliceLast
  by_cases hlt : N < (l ++ [y]).length
  · have hlt2 : N < l.length + 1 := by simpa using hlt
    simp only [List.length_append, List.length_cons, List.length_nil,
      Nat.zero_add, if_pos hlt2, if_neg hN]
  · have h0 : l.length + 1 - N = 0 := by
      simp only [List.length_append, List.length_cons, List.length_nil,
        Nat.zero_add, Nat.not_lt] at hlt
      omega
    simp only [if_neg hlt, h0, List.drop_zero]

theorem foldl_appendHistory {α : Type _} {N : Nat} (hN : 0 < N)
    (h : List α) (hh : h.length ≤ N) (items : List α) :
    items.foldl (appendHistory N) h =
      (h ++ items).drop (h.length + items.length - N) := by
  induction items using List.reverseRecOn with
  | nil =>
    simp only [List.foldl_nil, List.append_nil, List.length_nil, Nat.add_zero]
    rw [Nat.sub_eq_zero_of_le hh, List.drop_zero]
  | append_singleton ys y ih =>
    rw [List.foldl_append, List.foldl_cons, List.foldl_nil, ih,
      appendHistory_eq_drop hN.ne']
    have hle : h.length + ys.length - N ≤ (h ++ ys).length := by
      simp only [List.length_append]; omega
    rw [List.length_drop, ← List.drop_append_of_le_length hle, List.drop_drop,
      ← List.append_assoc]
    congr 1
    simp only [List.length_append, List.length_cons, List.length_nil]
    omega

/-- C4: History eviction — for every positive configured maximum `N` and
every sequence of `append_history` calls against a fresh session (history
starts empty, as `MemoryStore.create_session` makes it), the history length
never exceeds `N`, insertion order is preserved, and appending beyond `N`
keeps exactly the most recent `N` entries in their original relative order
(oldest evicted first) — `MemoryStore.append_history`, `store.py` 70–77. -/
theorem c4_history_eviction {α : Type _} (N : Nat) (items : List α)
    (hN : 0 < N) :
    (items.foldl (appendHistory N) []).length ≤ N
    ∧ items.foldl (appendHistory N) [] = items.drop (items.length - N)
    ∧ (items.length ≤ N → items.foldl (appendHistory N) [] = items) := by
  have h := foldl_appendHistory hN ([] : List α) (by simp) items
  simp only [List.nil_append, List.length_nil, Nat.zero_add] at h
  refine ⟨?_, h, ?_⟩
  · rw [h, List.length_drop]; omega
  · intro hle
    rw [h, Nat.sub_eq_zero_of_le hle, List.drop_zero]

/-- Witness for C4 at the default configuration `MAX_HISTORY = 20` with a
25-call sequence. -/
theorem c4_history_eviction_witness :
    ((List.range 25).foldl (appendHistory 20) []).length ≤ 20
    ∧ (List.range 25).foldl (appendHistory 20) [] = (List.range 25).drop 5 := by
  have h := c4_history_eviction 20 (List.range 25) (by decide)
  exact ⟨h.1, h.2.1⟩

/-! ## C3 — intent inference -/

theorem findIntentLabel_eq_find (table : List (Str × List Str)) (tl : Str) :
    findIntentLabel table tl =
      (table.find? (fun p => p.2.any (fun k => containsSub k tl))).map
        (fun p => p.1) := by
  induction table with
  | nil => rfl
  | cons p rest ih =>
    cases p with
    | mk lab kws =>
      rw [List.find?]
      cases hp : kws.any (fun k => containsSub k tl) with
      | true => simp [findIntentLabel, hp]
      | false => simp [findIntentLabel, hp, ih]

def intentLabels : List Str :=
  ([("build" : String), "all_in", "objective", "status", "macro",
    "follow_up", "matchup", "general"].map str)

/-- C3: for every text, `infer_intent` returns exactly one label of the
fixed eight-label set; it is the first label in the declared table order
whose keyword list has a substring match against the lowercased text, and
`"general"` exactly when no keyword of any intent matches (table order, not
textual position, breaks ties) — `nlu.infer_intent`, `nlu.INTENTS`. -/
theorem c3_infer_intent_spec (t : Str) :
    inferIntent t ∈ intentLabels
    ∧ inferIntent t =
        (((INTENTS.find? (fun p => p.2.any (fun k => containsSub k (pyLower t)))).map
          (fun p => p.1)).getD (str "general"))
    ∧ (inferIntent t = str "general" ↔
        ∀ p ∈ INTENTS, ∀ k ∈ p.2, containsSub k (pyLower t) = false) := by
  have htab : ∀ p ∈ INTENTS, p.1 ∈ intentLabels ∧ p.1 ≠ str "general" := by
    decide
  have heq : inferIntent t =
      (((INTENTS.find? (fun p => p.2.any (fun k => containsSub k (pyLower t)))).map
        (fun p => p.1)).getD (str "general")) := by
    unfold inferIntent
    rw [findIntentLabel_eq_find]
  refine ⟨?_, heq, ?_⟩
  · rw [heq]
    cases hf : INTENTS.find? (fun p => p.2.any (fun k => containsSub k (pyLower t))) with
    | none => simp [intentLabels]
    | some p =>
      have hp := List.mem_of_find?_eq_some hf
      simpa using (htab p hp).1
  · rw [heq]
    cases hf : INTENTS.find? (fun p => p.2.any (fun k => containsSub k (pyLower t))) with
    | none =>
      constructor
      · intro _ p hp k hk
        have := List.find?_eq_none.mp hf p hp
        simpa using (List.any_eq_false.mp (by simpa using this)) k hk
      · intro _; rfl
    | some p =>
      have hp := List.mem_of_find?_eq_some hf
      have hmatch := List.find?_some hf
      constructor
      · intro hgen
        exact absurd hgen (htab p hp).2
      · intro hall
        rcases List.any_eq_true.mp (by simpa using hmatch) with ⟨k, hk, hck⟩
        have := hall p hp k hk
        rw [this] at hck
        cases hck

/-! ## C10 — lane/phase conflation on "mid" -/

/-- C10: for every input text whose normalized form contains `"mid"` but
none of `"top"`, `"early"`, `"inicio"`, `"comeco"`, `extract_state_hints`
returns both `lane="mid"` and `game_phase="mid"` — an utterance that only
states the lane also overwrites the match phase (`nlu._extract_phase`,
`nlu._extract_lane`, `nlu.extract_state_hints`). -/
theorem c10_mid_lane_phase (t : Str)
    (h1 : containsSub (str "mid") (pyNormalize t) = true)
    (h2 : containsSub (str "top") (pyNormalize t) = false)
    (h3 : containsSub (str "early") (pyNormalize t) = false)
    (h4 : containsSub (str "inicio") (pyNormalize t) = false)
    (h5 : containsSub (str "comeco") (pyNormalize t) = false) :
    (extractStateHints t).gamePhase = some (str "mid")
    ∧ (extractStateHints t).lane = some (str "mid") := by
  constructor
  · show extractPhase (pyNormalize t) = some (str "mid")
    simp [extractPhase, h1, h3, h4, h5]
  · show extractLane (pyNormalize t) = some (str "mid")
    simp [extractLane, h1, h2]

/-- Witness for C10: the utterance `"mid"` itself. -/
theorem c10_mid_lane_phase_witness :
    (extractStateHints (str "mid")).gamePhase = some (str "mid")
    ∧ (extractStateHints (str "mid")).lane = some (str "mid") :=
  c10_mid_lane_phase (str "mid") (by decide) (by decide) (by decide)
    (by decide) (by decide)

/-! ## C2 — the gold extractor never fires (doubled-backslash regex) -/

/-- C2 (code bug): on the scenario utterance
`"tenho 2500 de ouro e to na frente"` the code yields `status="ahead"` but
no `gold` key at all, against the claimed `gold=2500`; the regexes of
`nlu._extract_gold` are raw strings with doubled backslashes and can only
match texts containing literal backslashes (last conjunct), while the
regexes the spec describes (`specExtractGold`) do produce 2500. -/
theorem c2_gold_extraction_bug :
    (extractStateHints (str "tenho 2500 de ouro e to na frente")).gold = none
    ∧ (extractStateHints (str "tenho 2500 de ouro e to na frente")).status
        = some (str "ahead")
    ∧ specExtractGold (pyNormalize (str "tenho 2500 de ouro e to na frente"))
        = some 2500
    ∧ ∀ t : Str, extractGold t = none ∨ '\\' ∈ t := by
  refine ⟨by decide, by decide, by decide, ?_⟩
  intro t
  by_cases hb : '\\' ∈ t
  · exact Or.inr hb
  · left
    have h1 : searchR goldPat1 t = none := by
      apply searchR_none_of_all
      intro u hu
      exact matchSeq_galt_backslash_none _ (by decide)
        (fun hm => hb (hu.subset hm))
    have h2 : searchR goldPat2 t = none := by
      apply searchR_none_of_all
      intro u hu
      exact matchSeq_lit_backslash_none _ (by decide)
        (fun hm => hb (hu.subset hm))
    simp [extractGold, h1, h2]

/-! ## C7 — the digit guard of the self-item prefix never fires -/

/-- C7 (code bug): the digit guard of `nlu._extract_self_prefix_item` is
`re.search(r"\\b\\d+\\b", item)`, which only matches texts containing
literal backslashes (last conjunct), so a gold statement such as
`"tenho 300"` is misclassified as the item `"300"`; the word guard
(`"gold"`/`"ouro"`) does work, as `"tenho ouro"` shows. -/
theorem c7_item_digit_guard_bug :
    extractItemHints (str "tenho 300") =
      { selfItem := some ⟨str "300", str "has"⟩ }
    ∧ extractItemHints (str "tenho ouro") = ({} : ItemHints)
    ∧ ∀ s : Str, brokenDigitSearch s = false ∨ '\\' ∈ s := by
  refine ⟨by decide, by decide, ?_⟩
  intro s
  by_cases hb : '\\' ∈ s
  · exact Or.inr hb
  · left
    have h1 : searchR brokenDigitPat s = none := by
      apply searchR_none_of_all
      intro u hu
      exact matchSeq_lit_backslash_none _ (by decide)
        (fun hm => hb (hu.subset hm))
    simp [brokenDigitSearch, h1]

/-! ## C8 — scenario "estou com Yasuo mid contra Zed" -/

/-- C8: the utterance `"estou com Yasuo mid contra Zed"` extracts
`champion=yasuo` (self-reference pattern), `lane=mid`, and exactly one
enemy `zed` with `is_laner=true`, `status=even`; the speaker's champion is
excluded from the enemy list (the enemies list holds `zed` alone) —
`nlu.extract_champions`, `nlu._extract_lane`, `nlu.extract_state_hints`. -/
theorem c8_scenario_yasuo_mid_zed :
    extractStateHints (str "estou com Yasuo mid contra Zed") =
      { gamePhase := some (str "mid"), lane := some (str "mid"),
        champion := some (str "yasuo"),
        enemies := some [⟨str "zed", str "even", true⟩],
        enemy := some (str "zed") } := by
  decide

/-! ## C5 — duplicate-free item accumulation -/

/-- Apply the same item hints twice in sequence to a session state, the way
two processed turns would merge them (`_merge_item_hints` feeding
`update_session`). -/
def mergeTwice (st : Dict) (ih : ItemHints) : Dict :=
  dictUpdate (dictUpdate st (mergeItemHints st ih))
    (mergeItemHints (dictUpdate st (mergeItemHints st ih)) ih)

/-- Occurrences of the string item `i` in a stored item list. -/
def countStrIn (i : Str) (xs : List Value) : Nat :=
  (xs.filter (fun v => match v with
    | .vstr s => s == i
    | _ => false)).length

theorem isStrIn_append_self (i : Str) (xs : List Value) :
    isStrIn i (xs ++ [.vstr i]) = true := by
  simp [isStrIn]

theorem countStrIn_eq_zero {i : Str} {xs : List Value}
    (h : isStrIn i xs = false) : countStrIn i xs = 0 := by
  unfold countStrIn
  rw [List.length_eq_zero]
  rw [List.filter_eq_nil_iff]
  intro v hv
  unfold isStrIn at h
  have := List.any_eq_false.mp h v hv
  simpa using this

theorem countStrIn_append_self {i : Str} {xs : List Value}
    (h : isStrIn i xs = false) : countStrIn i (xs ++ [.vstr i]) = 1 := by
  unfold countStrIn
  rw [List.filter_append]
  simp only [List.length_append]
  have h0 := countStrIn_eq_zero h
  unfold countStrIn at h0
  rw [h0]
  simp

/-- Closed form of `_merge_item_hints` on an enemy "has item" hint. -/
theorem mergeItemHints_enemy_has (st m : Dict) (cur : List Value) (c i : Str)
    (hm : getKey st (str "enemy_items") = some (.vdict m))
    (hcur : getKey m c = some (.vlist cur))
    (hc : c ≠ []) (hi : i ≠ []) :
    mergeItemHints st { enemyItem := some ⟨c, i, str "has"⟩ } =
      [(str "enemy_items", .vdict (setKey m c (.vlist
          (if isStrIn i cur then cur else cur ++ [.vstr i])))),
       (str "last_enemy_item", .vdict
          [(str "champion", .vstr c), (str "item", .vstr i)])] := by
  have hce : c.isEmpty = false := by simpa using hc
  have hie : i.isEmpty = false := by simpa using hi
  have hhas : ((str "has") == (str "has")) = true := by decide
  have hbuild : ((str "has") == (str "building")) = false := by decide
  unfold mergeItemHints getDictD
  simp only [hm, hce, hie, hcur, hhas, hbuild, Bool.not_false, Bool.and_self,
    Bool.true_and, if_true, Bool.false_eq_true, if_false]
  have hne : ¬(str "enemy_items" = str "last_enemy_item") := by decide
  cases hin : isStrIn i cur with
  | true => simp [setKey, hin, hne]
  | false => simp [setKey, hin, hne]

/-- C5: item accumulation is duplicate-free and idempotent.  First, the
spec scenario: merging `extract_item_hints("to com espada")` twice in
sequence into a fresh session state leaves `self_items == ["espada"]`.
Second, the same no-duplicate rule for an enemy champion's per-champion
item list: merging the same "enemy `c` has item `i`" hint twice into any
state whose `enemy_items[c]` does not yet contain `i` stores
`cur ++ [i]` for `c` — one occurrence of `i` — not `cur ++ [i, i]`
(`main._merge_item_hints`, `nlu._extract_self_prefix_item`). -/
theorem c5_item_accumulation_dedup :
    (getKey
        (mergeTwice
          (createSessionState
            [(str "champion", .vstr (str "yasuo")),
             (str "lane", .vstr (str "mid")), (str "enemy", .vnull)])
          (extractItemHints (str "to com espada")))
        (str "self_items") = some (.vlist [.vstr (str "espada")]))
    ∧ ∀ (st m : Dict) (cur : List Value) (c i : Str),
        getKey st (str "enemy_items") = some (.vdict m) →
        getKey m c = some (.vlist cur) →
        isStrIn i cur = false → c ≠ [] → i ≠ [] →
        ∃ m2 : Dict,
          getKey (mergeTwice st { enemyItem := some ⟨c, i, str "has"⟩ })
              (str "enemy_items") = some (.vdict m2)
          ∧ getKey m2 c = some (.vlist (cur ++ [.vstr i]))
          ∧ countStrIn i (cur ++ [.vstr i]) = 1 := by
  constructor
  · rfl
  · intro st m cur c i hm hcur hnot hc hi
    have hk1 : ((str "last_enemy_item") == (str "enemy_items")) = false := by
      decide
    have hk2 : ((str "enemy_items") == (str "enemy_items")) = true := by decide
    have r1 := mergeItemHints_enemy_has st m cur c i hm hcur hc hi
    rw [hnot] at r1
    simp only [Bool.false_eq_true, if_false] at r1
    have hst1 : getKey (dictUpdate st
        (mergeItemHints st { enemyItem := some ⟨c, i, str "has"⟩ }))
        (str "enemy_items")
        = some (.vdict (setKey m c (.vlist (cur ++ [.vstr i])))) := by
      rw [r1, getKey_dictUpdate]
      simp [lastVal, hk1, hk2]
    have hcur1 : getKey (setKey m c (.vlist (cur ++ [.vstr i]))) c
        = some (.vlist (cur ++ [.vstr i])) := getKey_setKey_self m c _
    have r2 := mergeItemHints_enemy_has
      (dictUpdate st (mergeItemHints st { enemyItem := some ⟨c, i, str "has"⟩ }))
      (setKey m c (.vlist (cur ++ [.vstr i]))) (cur ++ [.vstr i]) c i hst1 hcur1
      hc hi
    rw [isStrIn_append_self] at r2
    simp only [if_true] at r2
    refine ⟨setKey (setKey m c (.vlist (cur ++ [.vstr i]))) c
      (.vlist (cur ++ [.vstr i])), ?_, ?_, countStrIn_append_self hnot⟩
    · unfold mergeTwice
      rw [r2, getKey_dictUpdate]
      simp [lastVal, hk1, hk2]
    · exact getKey_setKey_self _ c _

/-- Witness for C5's general enemy-item part at a concrete state. -/
theorem c5_item_accumulation_dedup_witness :
    ∃ m2 : Dict,
      getKey (mergeTwice [(str "enemy_items", .vdict [(str "zed", .vlist [])])]
          { enemyItem := some ⟨str "zed", str "espada", str "has"⟩ })
          (str "enemy_items") = some (.vdict m2)
      ∧ getKey m2 (str "zed") = some (.vlist [.vstr (str "espada")])
      ∧ countStrIn (str "espada") [.vstr (str "espada")] = 1 := by
  have h := c5_item_accumulation_dedup.2
    [(str "enemy_items", .vdict [(str "zed", .vlist [])])]
    [(str "zed", .vlist [])] [] (str "zed") (str "espada")
    rfl rfl (by decide) (by decide) (by decide)
  simpa using h

/-! ## C9 — unclear input is rejected atomically -/

/-- C9: for every turn whose text is empty or whitespace-only after
normalization, `_process_turn` raises `STT_UNCLEAR` with the localized
`stt_unclear` message, and the session's state and history are completely
unchanged — the error is raised before any store call, so no merge and no
history append happen (`main._process_turn` 148–154, `errors.AppError`). -/
theorem c9_unclear_input_atomic (maxH : Nat) (locale : Str) (st : Dict)
    (hist : List Dict) (a : TurnArgs) (h : pyStrip a.text = []) :
    processTurn maxH locale st hist a =
      .error ⟨str "STT_UNCLEAR", msg (some locale) (str "stt_unclear"), 400⟩
    ∧ stepStore maxH locale (st, hist) a = (st, hist) := by
  have h1 : processTurn maxH locale st hist a =
      .error ⟨str "STT_UNCLEAR", msg (some locale) (str "stt_unclear"), 400⟩ := by
    unfold processTurn
    simp [h]
  exact ⟨h1, by simp [stepStore, h1]⟩

/-- Witness for C9: a whitespace-only utterance against a pt-BR session. -/
theorem c9_unclear_input_atomic_witness :
    processTurn 20 (str "pt-BR") [(str "champion", .vstr (str "yasuo"))] []
      { text := str "   " } =
      .error ⟨str "STT_UNCLEAR",
        msg (some (str "pt-BR")) (str "stt_unclear"), 400⟩
    ∧ stepStore 20 (str "pt-BR")
        ([(str "champion", .vstr (str "yasuo"))], []) { text := str "   " } =
      ([(str "champion", .vstr (str "yasuo"))], []) :=
  c9_unclear_input_atomic 20 (str "pt-BR") [(str "champion", .vstr (str "yasuo"))]
    [] { text := str "   " } (by decide)

/-! ## C1 — write-once champion/lane -/

theorem lastVal_delKey_ne (u : Dict) {k k' : Str} (h : ¬(k' = k)) :
    lastVal (delKey u k') k = lastVal u k := by
  induction u with
  | nil => rfl
  | cons kv rest ih =>
    cases hk : kv.1 == k' with
    | true =>
      have hne : (kv.1 == k) = false := by
        have := beq_iff_eq.mp hk
        simp [this, h]
      have h1 : delKey (kv :: rest) k' = delKey rest k' := by
        simp [delKey, hk]
      rw [h1, ih]
      cases hrest : lastVal rest k <;> simp [lastVal, hrest, hne]
    | false => simp [delKey, hk, lastVal, ih]

/-- One processed turn cannot change a truthy `champion` or `lane`. -/
theorem stepStore_keeps_locked (maxH : Nat) (locale : Str)
    (sh : Dict × List Dict) (a : TurnArgs) :
    (truthyOpt (getKey sh.1 (str "champion")) = true →
      getKey (stepStore maxH locale sh a).1 (str "champion")
        = getKey sh.1 (str "champion"))
    ∧ (truthyOpt (getKey sh.1 (str "lane")) = true →
      getKey (stepStore maxH locale sh a).1 (str "lane")
        = getKey sh.1 (str "lane")) := by
  unfold stepStore processTurn
  cases he : (pyStrip a.text).isEmpty with
  | true =>
    simp [he]
  | false =>
    simp only [he]
    constructor
    · intro hc
      have htail : hasKeyB
          [(str "last_intent", Value.vstr (inferIntent (pyStrip a.text))),
           (str "last_reply", Value.vstr a.reply)] (str "champion") = false := rfl
      have habs : ∀ u : Dict,
          hasKeyB (dropLocked sh.1 u) (str "champion") = false := by
        intro u
        unfold dropLocked
        rw [hc]
        simp only [if_true]
        split
        · exact hasKeyB_delKey_of_not _ (hasKeyB_delKey_self u _)
        · exact hasKeyB_delKey_self u _
      simp only [Bool.false_eq_true, if_false]
      rw [getKey_dictUpdate_absent _ htail, getKey_dictUpdate_absent _ (habs _)]
    · intro hl
      have htail : hasKeyB
          [(str "last_intent", Value.vstr (inferIntent (pyStrip a.text))),
           (str "last_reply", Value.vstr a.reply)] (str "lane") = false := rfl
      have habs : ∀ u : Dict,
          hasKeyB (dropLocked sh.1 u) (str "lane") = false := by
        intro u
        unfold dropLocked
        rw [hl]
        simp only [if_true]
        split <;> exact hasKeyB_delKey_self _ _
      simp only [Bool.false_eq_true, if_false]
      rw [getKey_dictUpdate_absent _ htail, getKey_dictUpdate_absent _ (habs _)]

/-- C1 (amended): write-once invariant for truthy values — for every
session and every sequence of processed turns, once `state.champion`
(respectively `state.lane`) holds a truthy value (non-null and non-empty),
no later turn changes it: any incoming update for the key, whether from
extraction or from the client state hint, is dropped by `dropLocked` before
the merge, while every other key of the update merges normally (last
conjunct) — `main._process_turn` 138–175, `MemoryStore.update_session`. -/
theorem c1_write_once_truthy (maxH : Nat) (locale : Str)
    (sh : Dict × List Dict) (turns : List TurnArgs) :
    (truthyOpt (getKey sh.1 (str "champion")) = true →
      getKey (runTurns maxH locale sh turns).1 (str "champion")
        = getKey sh.1 (str "champion"))
    ∧ (truthyOpt (getKey sh.1 (str "lane")) = true →
      getKey (runTurns maxH locale sh turns).1 (str "lane")
        = getKey sh.1 (str "lane"))
    ∧ ∀ (st u : Dict) (k : Str), ¬(k = str "champion") → ¬(k = str "lane") →
        lastVal (dropLocked st u) k = lastVal u k := by
  refine ⟨?_, ?_, ?_⟩
  · induction turns generalizing sh with
    | nil => intro _; rfl
    | cons a rest ih =>
      intro hc
      have hstep := (stepStore_keeps_locked maxH locale sh a).1 hc
      have hc2 : truthyOpt (getKey (stepStore maxH locale sh a).1
          (str "champion")) = true := by rw [hstep]; exact hc
      have : runTurns maxH locale sh (a :: rest)
          = runTurns maxH locale (stepStore maxH locale sh a) rest := rfl
      rw [this, ih _ hc2, hstep]
  · induction turns generalizing sh with
    | nil => intro _; rfl
    | cons a rest ih =>
      intro hl
      have hstep := (stepStore_keeps_locked maxH locale sh a).2 hl
      have hl2 : truthyOpt (getKey (stepStore maxH locale sh a).1
          (str "lane")) = true := by rw [hstep]; exact hl
      have : runTurns maxH locale sh (a :: rest)
          = runTurns maxH locale (stepStore maxH locale sh a) rest := rfl
      rw [this, ih _ hl2, hstep]
  · intro st u k hkc hkl
    unfold dropLocked
    split
    · split
      · rw [lastVal_delKey_ne _ (fun h => hkl h.symm),
          lastVal_delKey_ne _ (fun h => hkc h.symm)]
      · rw [lastVal_delKey_ne _ (fun h => hkc h.symm)]
    · split
      · rw [lastVal_delKey_ne _ (fun h => hkl h.symm)]
      · rfl

/-- The session of the C1 counterexample: started with
`initial_context.champion = ""` (a non-null string the API accepts). -/
def c1CEState : Dict :=
  createSessionState
    [(str "champion", .vstr []), (str "lane", .vstr (str "mid")),
     (str "enemy", .vnull)]

/-- The turn of the C1 counterexample: a client state hint carrying a new
champion. -/
def c1CETurn : TurnArgs :=
  { text := str "oi",
    clientHint := [(str "champion", .vstr (str "yasuo"))] }

/-- C1 counterexample: the claim as stated — immutability once `champion`
holds any non-null value — is false: the guard tests Python truthiness, so
a session whose champion is the non-null empty string has its champion
overwritten by the next turn's client state hint. -/
theorem c1_write_once_counterexample :
    getKey c1CEState (str "champion") = some (.vstr [])
    ∧ Value.vstr [] ≠ Value.vnull
    ∧ getKey (runTurns 20 (str "pt-BR") (c1CEState, []) [c1CETurn]).1
        (str "champion") = some (.vstr (str "yasuo"))
    ∧ Value.vstr (str "yasuo") ≠ Value.vstr [] := by
  refine ⟨rfl, ?_, rfl, ?_⟩
  · intro h
    cases h
  · intro h
    injection h with h2
    exact absurd h2 (by decide)

/-- Witness for C1 at a session holding a truthy champion and lane and one
concrete turn that tries to overwrite both. -/
theorem c1_write_once_truthy_witness :
    getKey (runTurns 20 (str "pt-BR")
        (createSessionState
          [(str "champion", .vstr (str "yasuo")),
           (str "lane", .vstr (str "mid")), (str "enemy", .vnull)], [])
        [{ text := str "oi",
           clientHint := [(str "champion", .vstr (str "zed")),
                          (str "lane", .vstr (str "top"))] }]).1
      (str "champion")
      = getKey (createSessionState
          [(str "champion", .vstr (str "yasuo")),
           (str "lane", .vstr (str "mid")), (str "enemy", .vnull)])
        (str "champion") :=
  (c1_write_once_truthy 20 (str "pt-BR")
    (createSessionState
      [(str "champion", .vstr (str "yasuo")),
       (str "lane", .vstr (str "mid")), (str "enemy", .vnull)], [])
    [{ text := str "oi",
       clientHint := [(str "champion", .vstr (str "zed")),
                      (str "lane", .vstr (str "top"))] }]).1 (by decide)

/-! ## C6 — the champion scan: dedup, membership, scan order -/

theorem mem_addIfNew (found : List Str) (d c : Str) :
    c ∈ addIfNew found d ↔ c ∈ found ∨ c = d := by
  unfold addIfNew
  split
  · rename_i h
    constructor
    · exact Or.inl
    · rintro (hc | rfl)
      · exact hc
      · exact h
  · simp

theorem nodup_addIfNew {found : List Str} (d : Str) (h : found.Nodup) :
    (addIfNew found d).Nodup := by
  unfold addIfNew
  split
  · exact h
  · rename_i hd
    simpa [List.nodup_append] using ⟨h, hd⟩

theorem mem_collect (pick : α → Option Str) (xs : List α) (found : List Str)
    (c : Str) :
    c ∈ collect pick xs found ↔ c ∈ found ∨ ∃ x ∈ xs, pick x = some c := by
  induction xs generalizing found with
  | nil => simp [collect]
  | cons x rest ih =>
    cases hp : pick x with
    | none => simp [collect, hp, ih]
    | some d =>
      simp only [collect, hp, ih, mem_addIfNew, List.mem_cons]
      constructor
      · rintro ((hc | rfl) | hr)
        · exact Or.inl hc
        · exact Or.inr ⟨x, Or.inl rfl, hp⟩
        · rcases hr with ⟨y, hy, hpy⟩
          exact Or.inr ⟨y, Or.inr hy, hpy⟩
      · rintro (hc | ⟨y, (rfl | hy), hpy⟩)
        · exact Or.inl (Or.inl hc)
        · rw [hp] at hpy
          injection hpy with h2
          exact Or.inl (Or.inr h2.symm)
        · exact Or.inr ⟨y, hy, hpy⟩

theorem nodup_collect (pick : α → Option Str) (xs : List α) {found : List Str}
    (h : found.Nodup) : (collect pick xs found).Nodup := by
  induction xs generalizing found with
  | nil => exact h
  | cons x rest ih =>
    cases hp : pick x with
    | none => simpa [collect, hp] using ih h
    | some d => simpa [collect, hp] using ih (nodup_addIfNew d h)

theorem collect_decomp (pick : α → Option Str) (xs : List α) (found : List Str) :
    ∃ e, collect pick xs found = found ++ e ∧ e.Sublist (xs.filterMap pick) := by
  induction xs generalizing found with
  | nil => exact ⟨[], by simp [collect]⟩
  | cons x rest ih =>
    cases hp : pick x with
    | none =>
      rcases ih found with ⟨e, he, hs⟩
      exact ⟨e, by simpa [collect, hp] using he,
        by simpa [List.filterMap_cons, hp] using hs⟩
    | some d =>
      by_cases hd : d ∈ found
      · rcases ih found with ⟨e, he, hs⟩
        refine ⟨e, by simpa [collect, hp, addIfNew, hd] using he, ?_⟩
        simpa [List.filterMap_cons, hp] using List.Sublist.cons d hs
      · rcases ih (found ++ [d]) with ⟨e, he, hs⟩
        refine ⟨d :: e, ?_, ?_⟩
        · rw [collect, hp]
          simp only [addIfNew, hd, if_false]
          rw [he, List.append_assoc]
          rfl
        · simpa [List.filterMap_cons, hp] using List.Sublist.cons₂ d hs

theorem filterMap_pick_sublist_map (pick : α → Option Str) (g : α → Str)
    (hg : ∀ x c, pick x = some c → c = g x) (l : List α) :
    (l.filterMap pick).Sublist (l.map g) := by
  induction l with
  | nil => simp
  | cons x rest ih =>
    cases hp : pick x with
    | none =>
      rw [List.filterMap_cons, hp, List.map_cons]
      exact ih.cons _
    | some d =>
      rw [List.filterMap_cons, hp, List.map_cons, hg x d hp]
      exact ih.cons₂ _

theorem mem_insLenDesc (x a : Str) (l : List Str) :
    a ∈ insLenDesc x l ↔ a = x ∨ a ∈ l := by
  induction l with
  | nil => simp [insLenDesc]
  | cons y ys ih =>
    unfold insLenDesc
    split
    · simp
    · simp only [List.mem_cons, ih]
      tauto

theorem pairwise_insLenDesc {x : Str} {l : List Str}
    (h : l.Pairwise (fun a b => b.length ≤ a.length)) :
    (insLenDesc x l).Pairwise (fun a b => b.length ≤ a.length) := by
  induction l with
  | nil => simp [insLenDesc]
  | cons y ys ih =>
    rw [List.pairwise_cons] at h
    unfold insLenDesc
    split
    · rename_i hyx
      rw [List.pairwise_cons]
      refine ⟨?_, List.pairwise_cons.mpr h⟩
      intro b hb
      rcases List.mem_cons.mp hb with rfl | hb
      · exact hyx
      · exact le_trans (h.1 b hb) hyx
    · rename_i hyx
      rw [List.pairwise_cons]
      refine ⟨?_, ih h.2⟩
      intro b hb
      rcases (mem_insLenDesc x b ys).mp hb with rfl | hb
      · omega
      · exact h.1 b hb

theorem pairwise_sortLenDesc (l : List Str) :
    (sortLenDesc l).Pairwise (fun a b => b.length ≤ a.length) := by
  induction l with
  | nil => simp [sortLenDesc]
  | cons x xs ih => exact pairwise_insLenDesc ih

theorem mem_sortLenDesc (a : Str) (l : List Str) :
    a ∈ sortLenDesc l ↔ a ∈ l := by
  induction l with
  | nil => simp [sortLenDesc]
  | cons x xs ih =>
    unfold sortLenDesc
    rw [mem_insLenDesc, ih, List.mem_cons]

theorem mem_dedupKeepFirst (a : Str) (l : List Str) :
    a ∈ dedupKeepFirst l ↔ a ∈ l := by
  have key : ∀ (l : List Str) (found : List Str),
      a ∈ l.foldl addIfNew found ↔ a ∈ found ∨ a ∈ l := by
    intro l
    induction l with
    | nil => simp
    | cons x xs ih =>
      intro found
      rw [List.foldl_cons, ih, mem_addIfNew, List.mem_cons]
      tauto
  simpa [dedupKeepFirst] using key l []

/-- C6: for every text, `_find_all_champions` reports each champion
identifier at most once (`Nodup`); an identifier is reported exactly when
an alias maps to it and matches the text, or it is a known champion name
occurring as a substring; and the output is the scan order — an alias
section (a sublist of the alias targets in table order) followed by a
canonical section that is a sublist of the champion names sorted by
descending length, hence itself length-descending, so longer multi-word
names are preferred over their prefixes (`nlu._find_all_champions`,
`nlu.KNOWN_CHAMPIONS`). -/
theorem c6_find_all_champions_spec (t : Str) :
    (findAllChampions t).Nodup
    ∧ (∀ c, c ∈ findAllChampions t ↔
        (∃ p ∈ CHAMPION_ALIASES, p.2 = c
            ∧ (containsSub p.1 t = true ∨ p.1 ∈ pySplit t))
        ∨ (c ∈ KNOWN_CHAMPIONS ∧ containsSub c t = true))
    ∧ ∃ ea ec, findAllChampions t = ea ++ ec
        ∧ ea.Sublist (CHAMPION_ALIASES.map (fun p => p.2))
        ∧ ec.Sublist sortedChampions
        ∧ ec.Pairwise (fun a b => b.length ≤ a.length) := by
  refine ⟨?_, ?_, ?_⟩
  · exact nodup_collect _ _ (nodup_collect _ _ List.nodup_nil)
  · intro c
    unfold findAllChampions
    rw [mem_collect, mem_collect]
    constructor
    · rintro ((h0 | ⟨p, hp, hpick⟩) | ⟨x, hx, hpick⟩)
      · cases h0
      · left
        unfold aliasPick at hpick
        split at hpick
        · rename_i hcond
          injection hpick with h2
          rcases Bool.or_eq_true_iff.mp hcond with hcs | hw
          · exact ⟨p, hp, h2, Or.inl hcs⟩
          · exact ⟨p, hp, h2, Or.inr (by simpa using hw)⟩
        · cases hpick
      · right
        unfold canonPick at hpick
        split at hpick
        · rename_i hcond
          injection hpick with h2
          subst h2
          exact ⟨(mem_sortLenDesc _ _).mp hx, hcond⟩
        · cases hpick
    · rintro (⟨p, hp, rfl, hcond⟩ | ⟨hk, hcs⟩)
      · refine Or.inl (Or.inr ⟨p, hp, ?_⟩)
        unfold aliasPick
        rcases hcond with hcs | hw
        · simp [hcs]
        · simp [hw]
      · refine Or.inr ⟨c, (mem_sortLenDesc _ _).mpr hk, ?_⟩
        unfold canonPick
        simp [hcs]
  · rcases collect_decomp (aliasPick t) CHAMPION_ALIASES [] with ⟨ea, hea, hsa⟩
    rcases collect_decomp (canonPick t) sortedChampions
      (collect (aliasPick t) CHAMPION_ALIASES []) with ⟨ec, hec, hsc⟩
    refine ⟨ea, ec, ?_, ?_, ?_, ?_⟩
    · unfold findAllChampions
      rw [hec, hea]
      simp
    · refine hsa.trans (filterMap_pick_sublist_map _ (fun p => p.2) ?_ _)
      intro x c hx
      unfold aliasPick at hx
      split at hx
      · injection hx with h2
        exact h2.symm
      · cases hx
    · refine hsc.trans ?_
      have := filterMap_pick_sublist_map (canonPick t) id ?hg sortedChampions
      · simpa using this
      case hg =>
        intro x c hx
        unfold canonPick at hx
        split at hx
        · injection hx with h2
          exact h2.symm
        · cases hx
    · have hsub : ec.Sublist sortedChampions := by
        refine hsc.trans ?_
        have := filterMap_pick_sublist_map (canonPick t) id ?hg2 sortedChampions
        · simpa using this
        case hg2 =>
          intro x c hx
          unfold canonPick at hx
          split at hx
          · injection hx with h2
            exact h2.symm
          · cases hx
      exact (pairwise_sortLenDesc KNOWN_CHAMPIONS).sublist hsub
